import Mathlib

/-!
# Verification of the auto-playwright task-completion core

This file gives a shallow embedding, in Lean, of the task-completion
orchestration engine of the auto-playwright repository:

* the conversation-driven tool-call loop of `src/completeTask.ts`
  (`completeTask`, here decomposed into `dispatchToolCalls` and `runLoop`);
* the `locator_selectOption` argument schema and execution body, the three
  locating actions (`locateElement`, `locateElementsByRole`,
  `locateElementsWithText`), and the visible-structure extraction algorithm
  (`extractVisibleStructure`) of `createActions.ts`.

Machine-level conventions of the embedding:

* JavaScript values travelling through the conversation are modelled by the
  inductive `Json`; `JSON.stringify` is modelled by the `Json` value itself
  (the serialisation is not the subject of any claim).
* Exceptions thrown by argument parsing (`JSON.parse` + zod `.parse`) and by
  execution bodies are modelled with `Except String`; the carried `String`
  is the `message` of the thrown `Error`.
* The hosted model is an oracle `List Message → ModelTurn`: given the
  conversation so far it answers with the next assistant message.  The loop
  of the source has no built-in bound, so the embedding takes a fuel
  parameter counting model round-trips; running out of fuel is the
  distinguished outcome `Outcome.outOfFuel` and corresponds to no behaviour
  of the source (the source would simply keep looping).
-/

/-- JSON-serialisable JavaScript values (the payloads of tool results). -/
inductive Json where
  | null : Json
  | bool (b : Bool) : Json
  | num (n : Int) : Json
  | str (s : String) : Json
  | arr (elems : List Json) : Json
  | obj (fields : List (String × Json)) : Json

/-- In the openai SDK used by the source, `ChatCompletionMessageToolCall.type`
is the literal type with single value "function"; the guard
`toolCall.type === "function"` in `completeTask.ts` tests this field. -/
inductive ToolCallType where
  | function : ToolCallType

/-- The `function` payload of a requested tool call: the action name and the
raw (unparsed) JSON-text arguments. -/
structure ToolCallFunction where
  name : String
  arguments : String

/-- One requested tool call of an assistant message. -/
structure ToolCall where
  id : String
  type : ToolCallType
  function : ToolCallFunction

/-- One turn of the conversation.  `assistant` carries the optional free-text
content plus the list of requested tool calls (an assistant message with no
tool calls is modelled with an empty list, matching `message?.tool_calls`
being absent or empty); `tool` is a tool-result message whose `content` is
the stringified JSON payload (modelled by the `Json` value itself). -/
inductive Message where
  | system (content : String) : Message
  | user (content : String) : Message
  | assistant (content : Option String) (tool_calls : List ToolCall) : Message
  | tool (tool_call_id : String) (content : Json) : Message

/-- An entry of the action registry as consumed by the orchestrator:
`parse` models `action.parse(rawArguments)` (JSON.parse followed by zod
schema validation, throwing on failure) and `run` models
`await action.function(parsedArgs)` (throwing on execution failure). -/
structure ActionTool where
  parse : String → Except String Json
  run : Json → Except String Json

/-- The action registry `actions` of `completeTask.ts`: a record keyed by
action name (`actions[toolCall.function.name]`). -/
def Actions : Type := String → Option ActionTool

/-- What the model answers to one request: optional free text and the
(possibly empty) ordered list of requested tool calls. -/
structure ModelTurn where
  content : Option String
  tool_calls : List ToolCall

/-- Final outcome of `completeTask`:
`result r` models a normal return of `lastFunctionResult`;
`errNoResult` models
`throw new Error("Expected to have a result from one of the result functions")`;
`errUnknown n` models `throw new Error("Unknown function: " + n)`;
`outOfFuel` is the embedding artefact for a run longer than the fuel. -/
inductive Outcome where
  | result (r : Json) : Outcome
  | errNoResult : Outcome
  | errUnknown (name : String) : Outcome
  | outOfFuel : Outcome

/-- JavaScript `String.prototype.startsWith` (character-wise prefix test),
used by the orchestrator to recognise result-class action names. -/
def jsStartsWith (s pre : String) : Bool :=
  s.data.take pre.data.length == pre.data

/-- The error payload `JSON.stringify({ error: message })` pushed as a
tool result when a call fails recoverably. -/
def jsonError (e : String) : Json := Json.obj [("error", Json.str e)]

/-- The body of the `for (const toolCall of message.tool_calls)` loop of
`completeTask.ts`, lines 67-107: process the requested calls in order,
threading the `lastFunctionResult` slot, and collect the `toolCallResults`
messages.  An unregistered name throws (`Except.error` carrying the name,
thrown in the source as "Unknown function: name"); parse or execution
failures are caught per call and turned into a `jsonError` tool result.
A successful call whose name starts with "result" overwrites the
`lastFunctionResult` slot.  In the source `lastFunctionResult` has type
`TaskResult | null`; `TaskResult` (declared in `types.ts`, an object-shaped
tagged value per the specification) is always truthy, so the slot is
modelled as `Option Json`. -/
def dispatchToolCalls (actions : Actions) :
    List ToolCall → Option Json → Except String (List Message × Option Json)
  | [], last => Except.ok ([], last)
  | tc :: rest, last =>
    match tc.type with
    | ToolCallType.function =>
      match actions tc.function.name with
      | none => Except.error tc.function.name
      | some action =>
        match (action.parse tc.function.arguments).bind action.run with
        | Except.ok result =>
          let last1 :=
            if jsStartsWith tc.function.name "result" then some result
            else last
          match dispatchToolCalls actions rest last1 with
          | Except.error n => Except.error n
          | Except.ok (ms, l) => Except.ok (Message.tool tc.id result :: ms, l)
        | Except.error e =>
          match dispatchToolCalls actions rest last with
          | Except.error n => Except.error n
          | Except.ok (ms, l) =>
            Except.ok (Message.tool tc.id (jsonError e) :: ms, l)

/-- The `while (message?.tool_calls && message.tool_calls.length > 0)` loop of
`completeTask.ts`, lines 60-124, plus the post-loop return, lines 126-142.
The pair returned is (outcome, final conversation).  When the turn has tool
calls: push the assistant message, dispatch every call, push all tool
results together, ask the model again.  When it has none: return the
recorded `lastFunctionResult` or throw if the slot was never filled.
`loopExit` is the post-loop tail, lines 126-142: return the recorded
result or throw when the slot is still null. -/
def loopExit (msgs : List Message) : Option Json → Outcome × List Message
  | some r => (Outcome.result r, msgs)
  | none => (Outcome.errNoResult, msgs)

def runLoop (actions : Actions) (model : List Message → ModelTurn) :
    Nat → List Message → ModelTurn → Option Json → Outcome × List Message
  | 0, msgs, turn, last =>
    if turn.tool_calls.isEmpty then loopExit msgs last
    else (Outcome.outOfFuel, msgs)
  | Nat.succ f, msgs, turn, last =>
    if turn.tool_calls.isEmpty then loopExit msgs last
    else
      let msgs1 := msgs ++ [Message.assistant turn.content turn.tool_calls]
      match dispatchToolCalls actions turn.tool_calls last with
      | Except.error n => (Outcome.errUnknown n, msgs1)
      | Except.ok (ms, l) =>
        let msgs2 := msgs1 ++ ms
        runLoop actions model f msgs2 (model msgs2) l

/-- `completeTask` of `completeTask.ts`: build the initial conversation
(system instruction plus rendered task prompt), obtain the first assistant
message and enter the loop with an empty `lastFunctionResult` slot. -/
def completeTask (actions : Actions) (model : List Message → ModelTurn)
    (fuel : Nat) (systemPrompt userPrompt : String) : Outcome × List Message :=
  let initMsgs := [Message.system systemPrompt, Message.user userPrompt]
  runLoop actions model fuel initMsgs (model initMsgs) none

/-- Specification-side fold: the value of the most recent successful
result-class call (name starting with "result") in a list of dispatched
calls, starting from a previously recorded value `acc`.  Each later
successful result-class call overwrites the accumulator; failed calls and
non-result calls leave it unchanged. -/
def lastTerminal (actions : Actions) : List ToolCall → Option Json → Option Json
  | [], acc => acc
  | tc :: rest, acc =>
    let acc1 :=
      match actions tc.function.name with
      | none => acc
      | some action =>
        match (action.parse tc.function.arguments).bind action.run with
        | Except.ok v =>
          if jsStartsWith tc.function.name "result" then some v else acc
        | Except.error _ => acc
    lastTerminal actions rest acc1

/-- All tool calls requested across a conversation, in order. -/
def convCalls : List Message → List ToolCall
  | [] => []
  | Message.assistant _ tcs :: rest => tcs ++ convCalls rest
  | _ :: rest => convCalls rest

/-- The tool-call id a message answers, if it is a tool-result message. -/
def msgToolId : Message → Option String
  | Message.tool i _ => some i
  | _ => none

/-! ## The locator_selectOption action (createActions.ts) -/

/-- The validated argument record of `locatorSelectOptionSchema`: five
optional fields; `value` and `label` are `string | string[]` unions and
`index` is `number | number[]` (JSON numbers used as zero-based indices,
modelled as `Int`). -/
structure SelectOptionArgs where
  elementId : Option String
  cssSelector : Option String
  value : Option (Sum String (List String))
  label : Option (Sum String (List String))
  index : Option (Sum Int (List Int))

/-- The two `.refine` clauses of `locatorSelectOptionSchema`: the first
accepts when `elementId !== undefined || cssSelector !== undefined`, the
second when at least one of `value`, `label`, `index` is defined.  An input
passes schema validation exactly when both clauses hold (the field types
themselves are captured by `SelectOptionArgs`). -/
def locatorSelectOptionSchema (d : SelectOptionArgs) : Bool :=
  (d.elementId.isSome || d.cssSelector.isSome) &&
    (d.value.isSome || d.label.isSome || d.index.isSome)

/-- How many fields of the locator group (elementId, cssSelector) are
supplied. -/
def locatorGroupSupplied (d : SelectOptionArgs) : Nat :=
  d.elementId.isSome.toNat + d.cssSelector.isSome.toNat

/-- How many fields of the selection-criteria group (value, label, index)
are supplied. -/
def criteriaGroupSupplied (d : SelectOptionArgs) : Nat :=
  d.value.isSome.toNat + d.label.isSome.toNat + d.index.isSome.toNat

/-- The marker-attribute locator "[data-element-id=<id>]" built by
`getLocator` / the `elementId` branch of `locator_selectOption`. -/
def markerSelector (elementId : String) : String :=
  "[data-element-id=\"" ++ elementId ++ "\"]"

/-- JavaScript truthiness of a possibly-undefined string (`if (elementId)`):
`undefined` and the empty string are falsy. -/
def jsTruthy : Option String → Bool
  | some s => !(s == "")
  | none => false

/-- The `else if (cssSelector)` arm of the locator choice (an empty string
is falsy, like `undefined`). -/
def selectOptionCssFallback : Option String → Except String String
  | some c =>
    if c == "" then
      Except.error "You must provide either an elementId or a cssSelector."
    else Except.ok c
  | none =>
    Except.error "You must provide either an elementId or a cssSelector."

/-- The locator-choice chain of `locator_selectOption`, lines 523-533:
`if (elementId) ... else if (cssSelector) ... else throw`. -/
def selectOptionLocator (d : SelectOptionArgs) : Except String String :=
  match d.elementId with
  | some e =>
    if e == "" then selectOptionCssFallback d.cssSelector
    else Except.ok (markerSelector e)
  | none => selectOptionCssFallback d.cssSelector

/-- The argument eventually handed to the driver `locator.selectOption`:
raw value(s), label option object(s) (the source wraps each label as an
object with a label field), or index option object(s). -/
inductive SelectTarget where
  | byValue (v : Sum String (List String))
  | byLabel (l : Sum String (List String))
  | byIndex (i : Sum Int (List Int))

/-- The execution body of `locator_selectOption`, lines 520-554, as the
trace of driver `selectOption` calls it performs: choose the locator, then
`if (value !== undefined) ... else if (label !== undefined) ... else if
(index !== undefined) ... else throw`.  Each entry of the returned list is
one driver call (selector, argument). -/
def locator_selectOption (d : SelectOptionArgs) :
    Except String (List (String × SelectTarget)) :=
  match selectOptionLocator d with
  | Except.error e => Except.error e
  | Except.ok sel =>
    match d.value with
    | some v => Except.ok [(sel, SelectTarget.byValue v)]
    | none =>
      match d.label with
      | some l => Except.ok [(sel, SelectTarget.byLabel l)]
      | none =>
        match d.index with
        | some i => Except.ok [(sel, SelectTarget.byIndex i)]
        | none =>
          Except.error
            "You must provide at least one of the parameters: value, label, or index."

/-! ## The locating actions (createActions.ts) -/

/-- The page as seen through the narrow driver contracts the locating
actions use: CSS query, role query, text query (each returning the matched
elements in page order, as opaque references), and computed visibility. -/
structure PageModel where
  queryCss : String → List Nat
  byRole : String → Bool → List Nat
  byText : String → Bool → List Nat
  visible : Nat → Bool

/-- What a locating action did: the `setAttribute("data-element-id", id)`
stampings it performed (element, token), the JSON payload it returned, and
the next state of the fresh-identifier supply. -/
structure LocateOutcome where
  stamped : List (Nat × String)
  response : Json
  nextFresh : Nat

/-- `locateElement`: resolve the CSS selector, take `.first()`, generate one
`randomUUID` token, stamp it onto that single element and return
`{ elementId }`.  When no element matches, the driver call
`locator.first().evaluate(...)` fails (Playwright waits for the element and
throws a timeout error), modelled as `Except.error`.  `uuid` is the random
supply: call number n yields token `uuid n`. -/
def locateElement (pg : PageModel) (uuid : Nat → String) (fresh : Nat)
    (cssSelector : String) : Except String LocateOutcome :=
  match pg.queryCss cssSelector with
  | [] => Except.error "locator.first().evaluate: element not found"
  | e :: _ =>
    let elementId := uuid fresh
    Except.ok
      ⟨[(e, elementId)], Json.obj [("elementId", Json.str elementId)],
        fresh + 1⟩

/-- The `for (const locator of locators)` loop of `locateElementsByRole`:
stamp a fresh token onto every element, collecting (element, token) pairs
and the token list. -/
def stampAll (uuid : Nat → String) :
    List Nat → Nat → List (Nat × String) × List String × Nat
  | [], fresh => ([], [], fresh)
  | e :: rest, fresh =>
    let elementId := uuid fresh
    let (st, ids, fr) := stampAll uuid rest (fresh + 1)
    ((e, elementId) :: st, elementId :: ids, fr)

/-- `locateElementsByRole`: query by ARIA role (exact defaulting to false),
stamp every match, return `{ elementIds, count }`. -/
def locateElementsByRole (pg : PageModel) (uuid : Nat → String) (fresh : Nat)
    (role : String) (exact : Option Bool) : LocateOutcome :=
  let locs := pg.byRole role (exact.getD false)
  let (st, ids, fr) := stampAll uuid locs fresh
  ⟨st,
    Json.obj
      [("elementIds", Json.arr (ids.map Json.str)),
        ("count", Json.num (Int.ofNat ids.length))],
    fr⟩

/-- The loop of `locateElementsWithText`: stamp a fresh token onto each
match that `isVisible()`, skipping invisible ones. -/
def stampVisible (pg : PageModel) (uuid : Nat → String) :
    List Nat → Nat → List (Nat × String) × List String × Nat
  | [], fresh => ([], [], fresh)
  | e :: rest, fresh =>
    if pg.visible e then
      let elementId := uuid fresh
      let (st, ids, fr) := stampVisible pg uuid rest (fresh + 1)
      ((e, elementId) :: st, elementId :: ids, fr)
    else stampVisible pg uuid rest fresh

/-- `locateElementsWithText`: query by text (exact defaulting to false),
stamp every visible match, return `{ elementIds, count }`. -/
def locateElementsWithText (pg : PageModel) (uuid : Nat → String) (fresh : Nat)
    (text : String) (exact : Option Bool) : LocateOutcome :=
  let locs := pg.byText text (exact.getD false)
  let (st, ids, fr) := stampVisible pg uuid locs fresh
  ⟨st,
    Json.obj
      [("elementIds", Json.arr (ids.map Json.str)),
        ("count", Json.num (Int.ofNat ids.length))],
    fr⟩

/-! ## The visible-structure extraction (createActions.ts, getVisibleStructure) -/

/-- A DOM node as the in-page `extractVisibleStructure` sees it: an element
carries its tag name, attribute map, the three computed-style strings the
visibility test reads (`display`, `visibility`, `opacity`), and its child
nodes in order; or a plain text node (`nodeType === 3`). -/
inductive DomNode where
  | element (tag : String) (attrs : List (String × String))
      (display visibility opacity : String) (childNodes : List DomNode)
  | text (s : String)

/-- One node of the extracted visible-structure tree (the object literal
built at lines 726-730 plus the optional convenience fields). -/
inductive VNode where
  | mk (tag : String) (attributes : List (String × String))
      (id : Option String) (role : Option String) (ariaLabel : Option String)
      (className : Option String) (text : Option String)
      (children : List VNode)

def VNode.tag : VNode → String
  | VNode.mk t _ _ _ _ _ _ _ => t

def VNode.attributes : VNode → List (String × String)
  | VNode.mk _ a _ _ _ _ _ _ => a

def VNode.text : VNode → Option String
  | VNode.mk _ _ _ _ _ _ tx _ => tx

def VNode.children : VNode → List VNode
  | VNode.mk _ _ _ _ _ _ _ ch => ch

/-- One entry of the `allowedAttributes` map: `true` (allow every attribute
for this key) or an explicit name list. -/
inductive AttrRule where
  | all : AttrRule
  | names (ns : List String) : AttrRule

/-- The sanitizer `allowedAttributes` shape consumed by the extractor:
the literal `false` (which the source treats as allow-all, lines 733-737)
or a map keyed by tag name or the wildcard key. -/
inductive AllowedAttrs where
  | allowAll : AllowedAttrs
  | perTag (m : List (String × AttrRule)) : AllowedAttrs

/-- The shape of `getSanitizeOptions()` consumed by `getVisibleStructure`
(the sanitizer configuration itself lives outside the extracted core; only
its shape matters here). -/
structure SanitizeConfig where
  allowedTags : List String
  allowedAttributes : AllowedAttrs

def lookupRule (m : List (String × AttrRule)) (k : String) : Option AttrRule :=
  (m.find? (fun p => p.1 == k)).map (fun p => p.2)

/-- `allowedForTag === true` / `allowedForAll === true`. -/
def ruleIsAll : Option AttrRule → Bool
  | some AttrRule.all => true
  | _ => false

/-- `Array.isArray(rule) && rule.includes(attrName)`. -/
def ruleAllows : Option AttrRule → String → Bool
  | some (AttrRule.names ns), n => ns.contains n
  | _, _ => false

/-- The attribute-copy loop, lines 732-760: with `allowedAttributes ===
false` every attribute is copied; with a map, an attribute is copied when
the tag rule or the wildcard rule is `true`, or when either rule is an
array containing its name. -/
def filterAttributes (aa : AllowedAttrs) (tag : String)
    (attrs : List (String × String)) : List (String × String) :=
  match aa with
  | AllowedAttrs.allowAll => attrs
  | AllowedAttrs.perTag m =>
    let allowedForAll := lookupRule m "*"
    let allowedForTag := lookupRule m tag
    attrs.filter (fun p =>
      ruleIsAll allowedForTag || ruleIsAll allowedForAll ||
        ruleAllows allowedForTag p.1 || ruleAllows allowedForAll p.1)

/-- `element.getAttribute(name)` (null when absent). -/
def getAttribute (attrs : List (String × String)) (n : String) :
    Option String :=
  (attrs.find? (fun p => p.1 == n)).map (fun p => p.2)

/-- The whitespace set of the JavaScript `trim` (the common ASCII cases). -/
def jsWhitespace (c : Char) : Bool :=
  c == ' ' || c == '\t' || c == '\n' || c == '\r' || c == '\x0c' || c == '\x0b'

/-- JavaScript `String.prototype.trim`: strip leading and trailing
whitespace. -/
def jsTrim (s : String) : String :=
  String.mk (((s.data.dropWhile jsWhitespace).reverse.dropWhile
    jsWhitespace).reverse)

/-- JavaScript `String.prototype.toLowerCase` (character-wise lowering;
JavaScript operates on UTF-16 units, this model on characters, which agrees
on every claim considered). -/
def jsToLower (s : String) : String := String.mk (s.data.map Char.toLower)

/-- JavaScript `if (x)` applied to a string-or-null field: keep it only when
present and non-empty. -/
def truthyString : Option String → Option String
  | some s => if s == "" then none else some s
  | none => none

mutual
/-- `element.textContent`: the concatenated text of all descendants. -/
def textContent : DomNode → String
  | DomNode.text s => s
  | DomNode.element _ _ _ _ _ kids => textContentList kids
termination_by structural n => n

def textContentList : List DomNode → String
  | [] => ""
  | k :: rest => textContent k ++ textContentList rest
termination_by structural l => l
end

/-- The 50-character truncation with ellipsis marker, line 789 (JavaScript
string length and slice count UTF-16 units; this model counts characters,
which agrees on all claims considered). -/
def truncateText (t : String) : String :=
  if t.length > 50 then t.take 50 ++ "..." else t

/-- True exactly when `childNodes.length === 1 && childNodes[0].nodeType
=== 3`. -/
def singleTextChild : List DomNode → Bool
  | [DomNode.text _] => true
  | _ => false

mutual
/-- The recursive `extractVisibleStructure` of `getVisibleStructure`,
lines 706-806.  Pruning returns `none`: depth beyond `maxDepth`, an
invisible computed style, or a tag outside the allow-list each drop the
whole subtree.  Otherwise a `VNode` is built: lower-cased tag, attributes
filtered by the sanitizer policy, truthy convenience fields, the trimmed
and truncated own text when the element has a single text child, and the
children extracted at `depth + 1` only while `depth + 1 < maxDepth`.
The `DomNode.text` equation is unreachable from the source (the recursion
ranges over `element.children`, which holds only elements); it returns
`none` so that child extraction can uniformly skip text nodes. -/
def extractVisibleStructure (cfg : SanitizeConfig) (maxDepth : Nat) :
    DomNode → Nat → Option VNode
  | DomNode.text _, _ => none
  | DomNode.element tag attrs display visibility opacity kids, depth =>
    if depth > maxDepth then none
    else if display == "none" || visibility == "hidden" || opacity == "0" then
      none
    else
      let t := jsToLower tag
      if !(cfg.allowedTags.contains t) then none
      else
        let className := jsTrim ((getAttribute attrs "class").getD "")
        let ownText : Option String :=
          if singleTextChild kids then
            let txt := jsTrim (textContentList kids)
            if txt == "" then none else some (truncateText txt)
          else none
        some
          (VNode.mk t (filterAttributes cfg.allowedAttributes t attrs)
            (truthyString (getAttribute attrs "id"))
            (truthyString (getAttribute attrs "role"))
            (truthyString (getAttribute attrs "aria-label"))
            (if className == "" then none else some className)
            ownText
            (if depth + 1 < maxDepth then
              extractChildren cfg maxDepth kids (depth + 1)
            else []))
termination_by structural n _ => n

/-- The `for (let i = 0; i < element.children.length; i++)` loop, lines
793-803: extract each child, keeping the non-null results in order (text
nodes are not in `element.children` and extract to `none`). -/
def extractChildren (cfg : SanitizeConfig) (maxDepth : Nat) :
    List DomNode → Nat → List VNode
  | [], _ => []
  | k :: rest, depth =>
    match extractVisibleStructure cfg maxDepth k depth with
    | some v => v :: extractChildren cfg maxDepth rest depth
    | none => extractChildren cfg maxDepth rest depth
termination_by structural l _ => l
end

/-- `getVisibleStructure` fixes `maxDepth = 30` and starts the extraction at
`document.body` with depth 0. -/
def getVisibleStructure (cfg : SanitizeConfig) (body : DomNode) :
    Option VNode :=
  extractVisibleStructure cfg 30 body 0

mutual
/-- Height of an extracted tree: number of levels along the longest path. -/
def vnodeHeight : VNode → Nat
  | VNode.mk _ _ _ _ _ _ _ ch => 1 + vnodeListHeight ch
termination_by structural v => v

def vnodeListHeight : List VNode → Nat
  | [] => 0
  | v :: vs => max (vnodeHeight v) (vnodeListHeight vs)
termination_by structural l => l
end

mutual
/-- Every node of an extracted tree (the node itself and all descendants). -/
def vnodeAll : VNode → List VNode
  | VNode.mk t a i r al c tx ch =>
    VNode.mk t a i r al c tx ch :: vnodeAllList ch
termination_by structural v => v

def vnodeAllList : List VNode → List VNode
  | [] => []
  | v :: vs => vnodeAll v ++ vnodeAllList vs
termination_by structural l => l
end

/-- A nested chain of visible `<div>` elements: `divChain n` has n + 1
levels. -/
def divChain : Nat → DomNode
  | 0 => DomNode.element "div" [] "block" "visible" "1" []
  | Nat.succ n => DomNode.element "div" [] "block" "visible" "1" [divChain n]

/-! ## Concrete fixtures used to exercise the definitions -/

/-- A result-class action in the style of `resultQuery`: parsing wraps the
raw text, execution returns an object with a query field. -/
def fixResultTool : ActionTool :=
  ⟨fun s => Except.ok (Json.str s), fun j => Except.ok (Json.obj [("query", j)])⟩

/-- An action whose argument parsing always fails. -/
def fixFailTool : ActionTool :=
  ⟨fun _ => Except.error "bad args", fun _ => Except.ok Json.null⟩

/-- A registry with one result-class action. -/
def fixActions : Actions :=
  fun n => if n == "resultQuery" then some fixResultTool else none

/-- A registry with a result-class action and a failing page action. -/
def fixActions2 : Actions :=
  fun n =>
    if n == "locator_click" then some fixFailTool
    else if n == "resultQuery" then some fixResultTool
    else none

def fixCall : ToolCall :=
  ⟨"call1", ToolCallType.function, ⟨"resultQuery", "hello"⟩⟩

def fixCall2 : ToolCall :=
  ⟨"call2", ToolCallType.function, ⟨"resultQuery", "bye"⟩⟩

def fixCallFail : ToolCall :=
  ⟨"call3", ToolCallType.function, ⟨"locator_click", "zzz"⟩⟩

def fixCallUnknown : ToolCall :=
  ⟨"call9", ToolCallType.function, ⟨"page_scroll", ""⟩⟩

/-- A model oracle that requests one `resultQuery` call on the first turn and
stops afterwards. -/
def fixModel : List Message → ModelTurn :=
  fun msgs => if msgs.length ≤ 2 then ⟨none, [fixCall]⟩ else ⟨some "done", []⟩

def fixResult : Json := Json.obj [("query", Json.str "hello")]

/-- The conversation produced by `completeTask fixActions fixModel 2`. -/
def fixFinalMsgs : List Message :=
  [Message.system "sys", Message.user "task",
    Message.assistant none [fixCall], Message.tool "call1" fixResult]

def fixTurnUnknown : ModelTurn := ⟨none, [fixCallUnknown]⟩

/-- A sanitizer configuration allowing div and p tags and no attributes. -/
def cfg0 : SanitizeConfig := ⟨["div", "p"], AllowedAttrs.perTag []⟩

/-- A page with two css matches for "#a", two role matches for "button",
and two text matches for "hi" of which element 6 is invisible. -/
def pg0 : PageModel :=
  ⟨fun s => if s == "#a" then [1, 2] else [],
    fun r _ => if r == "button" then [3, 4] else [],
    fun t _ => if t == "hi" then [5, 6] else [],
    fun e => !(e == 6)⟩

/-- A deterministic stand-in for the `randomUUID` supply: "u", "ux",
"uxx", ... -/
def uuid0 : Nat → String := fun n => String.mk ('u' :: List.replicate n 'x')

/-- A selectOption input supplying both locator fields and two selection
criteria. -/
def c5Both : SelectOptionArgs :=
  ⟨some "e7", some "#sel", some (Sum.inl "v"), some (Sum.inl "lab"), none⟩

/-- A selectOption input with an empty-string elementId together with a css
selector. -/
def c10Args : SelectOptionArgs :=
  ⟨some "", some "#sel", some (Sum.inl "banana"), none, none⟩

/-- The identifiers a locating action draws from the supply: tokens
`uuid fresh`, `uuid (fresh + 1)`, ... for `n` successive calls. -/
def freshIds (uuid : Nat → String) (fresh n : Nat) : List String :=
  (List.range n).map (fun i => uuid (fresh + i))

namespace OrchestratorProofs

lemma lastTerminal_append (actions : Actions) (a b : List ToolCall)
    (acc : Option Json) :
    lastTerminal actions (a ++ b) acc =
      lastTerminal actions b (lastTerminal actions a acc) := by
  induction a generalizing acc with
  | nil => rfl
  | cons tc rest ih =>
    simp only [List.cons_append, lastTerminal]
    exact ih _

/-- Dispatching a turn threads the `lastFunctionResult` slot exactly as the
specification fold `lastTerminal` does, produces only tool-result messages
(hence no further calls), and pairs the i-th produced message with the i-th
requested call id. -/
lemma dispatchToolCalls_ok_spec (actions : Actions) (tcs : List ToolCall)
    (last : Option Json) (ms : List Message) (l : Option Json)
    (h : dispatchToolCalls actions tcs last = Except.ok (ms, l)) :
    l = lastTerminal actions tcs last ∧ convCalls ms = [] ∧
      ms.map msgToolId = tcs.map (fun tc => some tc.id) := by
  induction tcs generalizing last ms l with
  | nil =>
    simp only [dispatchToolCalls, Except.ok.injEq, Prod.mk.injEq] at h
    obtain ⟨h1, h2⟩ := h
    subst h1; subst h2
    simp [lastTerminal, convCalls]
  | cons tc rest ih =>
    simp only [dispatchToolCalls] at h
    split at h
    · exact absurd h (by simp)
    · rename_i action hact
      split at h
      · rename_i result hexec
        split at h
        · exact absurd h (by simp)
        · rename_i ms' l' hrec
          simp only [Except.ok.injEq, Prod.mk.injEq] at h
          obtain ⟨h1, h2⟩ := h
          subst h2
          obtain ⟨ih1, ih2, ih3⟩ := ih _ _ _ hrec
          subst h1
          refine ⟨?_, ?_, ?_⟩
          · rw [ih1]; simp only [lastTerminal, hact, hexec]
          · simpa [convCalls] using ih2
          · simp [msgToolId, ih3]
      · rename_i e hexec
        split at h
        · exact absurd h (by simp)
        · rename_i ms' l' hrec
          simp only [Except.ok.injEq, Prod.mk.injEq] at h
          obtain ⟨h1, h2⟩ := h
          subst h2
          obtain ⟨ih1, ih2, ih3⟩ := ih _ _ _ hrec
          subst h1
          refine ⟨?_, ?_, ?_⟩
          · rw [ih1]; simp only [lastTerminal, hact, hexec]
          · simpa [convCalls] using ih2
          · simp [msgToolId, ih3]

lemma convCalls_append (a b : List Message) :
    convCalls (a ++ b) = convCalls a ++ convCalls b := by
  induction a with
  | nil => rfl
  | cons m rest ih =>
    cases m <;> simp [convCalls, ih]

/-- Exit case of the loop: the returned outcome mirrors the recorded slot. -/
lemma loopExit_spec (actions : Actions) (msgs : List Message)
    (last : Option Json) (out : Outcome) (fmsgs : List Message)
    (h : loopExit msgs last = (out, fmsgs))
    (hinv : lastTerminal actions (convCalls msgs) none = last) :
    (∀ r, out = Outcome.result r →
      lastTerminal actions (convCalls fmsgs) none = some r) ∧
    (out = Outcome.errNoResult →
      lastTerminal actions (convCalls fmsgs) none = none) := by
  cases hlast : last with
  | some r =>
    rw [hlast] at h
    simp only [loopExit, Prod.mk.injEq] at h
    obtain ⟨h1, h2⟩ := h
    subst h2
    constructor
    · intro r' hr'
      rw [← h1] at hr'
      cases hr'
      rw [hinv, hlast]
    · intro hno; rw [← h1] at hno; cases hno
  | none =>
    rw [hlast] at h
    simp only [loopExit, Prod.mk.injEq] at h
    obtain ⟨h1, h2⟩ := h
    subst h2
    constructor
    · intro r' hr'; rw [← h1] at hr'; cases hr'
    · intro _; rw [hinv, hlast]

/-- Loop invariant: if the recorded slot equals the specification fold over
the conversation so far, then at every exit of the loop the returned
outcome agrees with the fold over the final conversation. -/
lemma runLoop_invariant (actions : Actions) (model : List Message → ModelTurn) :
    ∀ (fuel : Nat) (msgs : List Message) (turn : ModelTurn)
      (last : Option Json) (out : Outcome) (fmsgs : List Message),
      runLoop actions model fuel msgs turn last = (out, fmsgs) →
      lastTerminal actions (convCalls msgs) none = last →
      (∀ r, out = Outcome.result r →
        lastTerminal actions (convCalls fmsgs) none = some r) ∧
      (out = Outcome.errNoResult →
        lastTerminal actions (convCalls fmsgs) none = none) := by
  intro fuel
  induction fuel with
  | zero =>
    intro msgs turn last out fmsgs hrun hinv
    rw [runLoop] at hrun
    by_cases hempty : turn.tool_calls.isEmpty
    · rw [if_pos hempty] at hrun
      exact loopExit_spec actions msgs last out fmsgs hrun hinv
    · rw [if_neg hempty] at hrun
      simp only [Prod.mk.injEq] at hrun
      obtain ⟨h1, h2⟩ := hrun
      constructor
      · intro r hr; rw [← h1] at hr; cases hr
      · intro hno; rw [← h1] at hno; cases hno
  | succ f ih =>
    intro msgs turn last out fmsgs hrun hinv
    rw [runLoop] at hrun
    by_cases hempty : turn.tool_calls.isEmpty
    · rw [if_pos hempty] at hrun
      exact loopExit_spec actions msgs last out fmsgs hrun hinv
    · rw [if_neg hempty] at hrun
      cases hdis : dispatchToolCalls actions turn.tool_calls last with
      | error n =>
        rw [hdis] at hrun
        simp only [Prod.mk.injEq] at hrun
        obtain ⟨h1, h2⟩ := hrun
        constructor
        · intro r hr; rw [← h1] at hr; cases hr
        · intro hno; rw [← h1] at hno; cases hno
      | ok p =>
        obtain ⟨ms, l⟩ := p
        rw [hdis] at hrun
        obtain ⟨hl, hcalls, _⟩ :=
          dispatchToolCalls_ok_spec actions turn.tool_calls last ms l hdis
        refine ih _ _ _ _ _ hrun ?_
        rw [convCalls_append, convCalls_append, lastTerminal_append,
          lastTerminal_append, hinv]
        simp only [convCalls, List.append_nil] at *
        rw [hcalls]
        simp only [lastTerminal]
        exact hl.symm

end OrchestratorProofs

/-! ## Claim theorems -/

/-- C1: for every completed task, when the model turn contains no tool calls
the orchestrator (`completeTask`) returns the value produced by the most
recent successful result-class action call in the whole conversation (the
fold `lastTerminal`, in which each later successful result-class call
overwrites the previously recorded value), and if no result-class call ever
succeeded it fails fatally (`errNoResult`) instead of returning a value. -/
theorem completeTask_returns_most_recent_result
    (actions : Actions) (model : List Message → ModelTurn) (fuel : Nat)
    (systemPrompt userPrompt : String) (out : Outcome) (fmsgs : List Message)
    (hrun : completeTask actions model fuel systemPrompt userPrompt
      = (out, fmsgs)) :
    (∀ r, out = Outcome.result r →
      lastTerminal actions (convCalls fmsgs) none = some r) ∧
    (out = Outcome.errNoResult →
      lastTerminal actions (convCalls fmsgs) none = none) ∧
    (∀ r, lastTerminal actions (convCalls fmsgs) none = some r →
      out ≠ Outcome.errNoResult) := by
  simp only [completeTask] at hrun
  obtain ⟨h1, h2⟩ :=
    OrchestratorProofs.runLoop_invariant actions model fuel
      [Message.system systemPrompt, Message.user userPrompt]
      (model [Message.system systemPrompt, Message.user userPrompt])
      none out fmsgs hrun (by rfl)
  refine ⟨h1, h2, ?_⟩
  intro r hr hno
  rw [h2 hno] at hr
  exact Option.noConfusion hr

theorem completeTask_returns_most_recent_result_witness :
    lastTerminal fixActions (convCalls fixFinalMsgs) none = some fixResult :=
  (completeTask_returns_most_recent_result fixActions fixModel 2 "sys" "task"
    (Outcome.result fixResult) fixFinalMsgs (by rfl)).1 fixResult rfl

/-- C2: for every assistant message carrying a non-empty list of requested
tool calls, the orchestrator appends exactly one tool-result message per
requested call, in request order (the i-th appended message answers the
i-th requested call id), and appends them all — after the assistant message
— before issuing the next model request; no call is dropped or reordered. -/
theorem dispatch_answers_every_call_in_order
    (actions : Actions) (model : List Message → ModelTurn) (turn : ModelTurn)
    (last : Option Json) (ms : List Message) (l : Option Json)
    (hne : turn.tool_calls ≠ [])
    (h : dispatchToolCalls actions turn.tool_calls last = Except.ok (ms, l)) :
    ms.map msgToolId = turn.tool_calls.map (fun tc => some tc.id) ∧
    ms.length = turn.tool_calls.length ∧
    ∀ f msgs,
      runLoop actions model (f + 1) msgs turn last =
        runLoop actions model f
          (msgs ++ [Message.assistant turn.content turn.tool_calls] ++ ms)
          (model
            (msgs ++ [Message.assistant turn.content turn.tool_calls] ++ ms))
          l := by
  obtain ⟨-, -, hmap⟩ :=
    OrchestratorProofs.dispatchToolCalls_ok_spec actions turn.tool_calls
      last ms l h
  have hempty : turn.tool_calls.isEmpty = false := by
    cases h' : turn.tool_calls with
    | nil => exact absurd h' hne
    | cons a b => rfl
  refine ⟨hmap, ?_, ?_⟩
  · have hlen := congrArg List.length hmap
    simpa using hlen
  · intro f msgs
    rw [runLoop, if_neg (by simp [hempty]), h]

theorem dispatch_answers_every_call_in_order_witness :
    [Message.tool "call1" fixResult,
        Message.tool "call2" (Json.obj [("query", Json.str "bye")])].map
      msgToolId
      = [some "call1", some "call2"] := by
  have h :=
    (dispatch_answers_every_call_in_order fixActions fixModel
      ⟨none, [fixCall, fixCall2]⟩ none
      [Message.tool "call1" fixResult,
        Message.tool "call2" (Json.obj [("query", Json.str "bye")])]
      (some (Json.obj [("query", Json.str "bye")]))
      (List.cons_ne_nil _ _) (by rfl)).1
  simpa [fixCall, fixCall2] using h

/-- C3: a dispatched call whose action name is registered but whose argument
parsing or execution body fails does not abort the task: the orchestrator
appends a tool-result whose content is the object with a single error field
carrying the message, the remaining calls are still dispatched, and a
validation failure is indistinguishable in the conversation from an
execution failure with the same message (both hypotheses yield the same
equation). -/
theorem failed_call_becomes_error_result
    (actions : Actions) (tc : ToolCall) (rest : List ToolCall)
    (last : Option Json) (a : ActionTool) (e : String)
    (ha : actions tc.function.name = some a)
    (he : a.parse tc.function.arguments = Except.error e ∨
      ∃ v, a.parse tc.function.arguments = Except.ok v ∧
        a.run v = Except.error e) :
    dispatchToolCalls actions (tc :: rest) last =
      (dispatchToolCalls actions rest last).map
        (fun p => (Message.tool tc.id (jsonError e) :: p.1, p.2)) := by
  have hbind : (a.parse tc.function.arguments).bind a.run = Except.error e := by
    rcases he with h1 | ⟨v, h1, h2⟩
    · rw [h1]; rfl
    · rw [h1]; simpa [Except.bind] using h2
  simp only [dispatchToolCalls, ha, hbind]
  cases hrec : dispatchToolCalls actions rest last with
  | error n => rfl
  | ok p => obtain ⟨ms, l⟩ := p; rfl

theorem failed_call_becomes_error_result_witness :
    dispatchToolCalls fixActions2 [fixCallFail] none =
      Except.ok ([Message.tool "call3" (jsonError "bad args")], none) := by
  rw [failed_call_becomes_error_result fixActions2 fixCallFail [] none
    fixFailTool "bad args" rfl (Or.inl rfl)]
  rfl

/-- C4: a dispatched tool call whose function name is not registered fails
the whole task fatally: processing the turn stops with the thrown unknown
name (no tool-result list is produced), and the loop surfaces the fatal
error to the caller instead of continuing the conversation.  `tc` is the
first offending call — every call before it is registered. -/
theorem unknown_action_is_fatal
    (actions : Actions) (model : List Message → ModelTurn) (turn : ModelTurn)
    (tc : ToolCall) (pre post : List ToolCall) (last : Option Json)
    (hsplit : turn.tool_calls = pre ++ tc :: post)
    (hpre : ∀ c ∈ pre, ∃ a, actions c.function.name = some a)
    (hunknown : actions tc.function.name = none) :
    dispatchToolCalls actions turn.tool_calls last =
      Except.error tc.function.name ∧
    ∀ f msgs,
      (runLoop actions model (f + 1) msgs turn last).1 =
        Outcome.errUnknown tc.function.name := by
  have hdis : ∀ (pre' : List ToolCall) (last' : Option Json),
      (∀ c ∈ pre', ∃ a, actions c.function.name = some a) →
      dispatchToolCalls actions (pre' ++ tc :: post) last' =
        Except.error tc.function.name := by
    intro pre'
    induction pre' with
    | nil =>
      intro last' _
      simp only [List.nil_append, dispatchToolCalls, hunknown]
    | cons c rest ih =>
      intro last' hreg
      obtain ⟨a, ha⟩ := hreg c (List.mem_cons_self c rest)
      have hrest : ∀ c2 ∈ rest, ∃ a2, actions c2.function.name = some a2 :=
        fun c2 hc2 => hreg c2 (List.mem_cons_of_mem c hc2)
      simp only [List.cons_append, dispatchToolCalls, ha]
      cases hexec : (a.parse c.function.arguments).bind a.run with
      | ok result => simp only [List.append_eq]; rw [ih _ hrest]
      | error e => simp only [List.append_eq]; rw [ih _ hrest]
  have hmain := hdis pre last hpre
  rw [← hsplit] at hmain
  have hempty : turn.tool_calls.isEmpty = false := by
    rw [hsplit]
    cases pre <;> rfl
  refine ⟨hmain, ?_⟩
  intro f msgs
  rw [runLoop, if_neg (by simp [hempty]), hmain]

theorem unknown_action_is_fatal_witness :
    dispatchToolCalls fixActions2 fixTurnUnknown.tool_calls none =
      Except.error "page_scroll" ∧
    ∀ f msgs,
      (runLoop fixActions2 fixModel (f + 1) msgs fixTurnUnknown none).1 =
        Outcome.errUnknown "page_scroll" :=
  unknown_action_is_fatal fixActions2 fixModel fixTurnUnknown fixCallUnknown
    [] [] none rfl (by simp) rfl


/-- C5 counterexample: the schema accepts an input that supplies BOTH
elementId and cssSelector and BOTH value and label, contradicting the claim
that validation accepts only inputs with exactly one field from each
either-or group. -/
theorem selectOption_schema_exactly_one_counterexample :
    locatorSelectOptionSchema c5Both = true ∧
    ¬(locatorGroupSupplied c5Both = 1 ∧ criteriaGroupSupplied c5Both = 1) := by
  constructor
  · rfl
  · intro h
    exact absurd h.1 (by decide)

/-- C5 (amended): the `locatorSelectOptionSchema` refinements accept an
input if and only if AT LEAST one of elementId and cssSelector is supplied
and AT LEAST one of value, label and index is supplied; zero from either
group is rejected, but supplying several from a group is accepted. -/
theorem selectOption_schema_accepts_iff_groups_nonempty
    (d : SelectOptionArgs) :
    locatorSelectOptionSchema d = true ↔
      1 ≤ locatorGroupSupplied d ∧ 1 ≤ criteriaGroupSupplied d := by
  obtain ⟨a, b, c, l, i⟩ := d
  cases a <;> cases b <;> cases c <;> cases l <;> cases i <;>
    simp [locatorSelectOptionSchema, locatorGroupSupplied,
      criteriaGroupSupplied]

theorem selectOption_schema_accepts_iff_groups_nonempty_witness :
    1 ≤ locatorGroupSupplied c5Both ∧ 1 ≤ criteriaGroupSupplied c5Both :=
  (selectOption_schema_accepts_iff_groups_nonempty c5Both).mp (by rfl)


/-- C10 counterexample: with elementId supplied as the empty string and a
cssSelector also supplied, the input passes schema validation but execution
uses the raw css selector, not the elementId marker locator — the claim
that the elementId marker is used whenever both fields are supplied fails
(JavaScript truthiness treats the empty string as absent). -/
theorem selectOption_truthiness_counterexample :
    locatorSelectOptionSchema c10Args = true ∧
    locator_selectOption c10Args =
      Except.ok [("#sel", SelectTarget.byValue (Sum.inl "banana"))] ∧
    "#sel" ≠ markerSelector "" := by
  exact ⟨rfl, rfl, by decide⟩

/-- C10 (amended): execution resolves ambiguity among validated inputs by a
fixed precedence and performs exactly one driver selectOption call: a
NON-EMPTY elementId wins over cssSelector (an empty elementId is falsy and
falls through to the cssSelector); among the criteria, a supplied value
(even an empty string, tested with a strict undefined check) beats label,
and label beats index. -/
theorem selectOption_execution_precedence (d : SelectOptionArgs) :
    (∀ e, d.elementId = some e → e ≠ "" →
      ∀ r, locator_selectOption d = Except.ok r →
        ∃ t, r = [(markerSelector e, t)]) ∧
    (∀ v, d.value = some v →
      ∀ r, locator_selectOption d = Except.ok r →
        ∃ s, r = [(s, SelectTarget.byValue v)]) ∧
    (∀ l, d.value = none → d.label = some l →
      ∀ r, locator_selectOption d = Except.ok r →
        ∃ s, r = [(s, SelectTarget.byLabel l)]) ∧
    (∀ i, d.value = none → d.label = none → d.index = some i →
      ∀ r, locator_selectOption d = Except.ok r →
        ∃ s, r = [(s, SelectTarget.byIndex i)]) ∧
    (∀ r, locator_selectOption d = Except.ok r → r.length = 1) := by
  obtain ⟨a, b, c, l, i⟩ := d
  refine ⟨?_, ?_, ?_, ?_, ?_⟩
  · intro e he hne r hr
    cases he
    have hne2 : (e == "") = false := by simpa using hne
    cases c with
    | some v =>
      simp [locator_selectOption, selectOptionLocator, hne2] at hr
      exact ⟨SelectTarget.byValue v, hr.symm⟩
    | none =>
      cases l with
      | some lv =>
        simp [locator_selectOption, selectOptionLocator, hne2] at hr
        exact ⟨SelectTarget.byLabel lv, hr.symm⟩
      | none =>
        cases i with
        | some iv =>
          simp [locator_selectOption, selectOptionLocator, hne2] at hr
          exact ⟨SelectTarget.byIndex iv, hr.symm⟩
        | none =>
          simp [locator_selectOption, selectOptionLocator, hne2] at hr
  · intro v hv r hr
    cases hv
    simp only [locator_selectOption] at hr
    cases hsel : selectOptionLocator ⟨a, b, some v, l, i⟩ with
    | error e => rw [hsel] at hr; exact absurd hr (by simp)
    | ok s =>
      rw [hsel] at hr
      simp only [Except.ok.injEq] at hr
      exact ⟨s, hr.symm⟩
  · intro lv hc hl r hr
    cases hc; cases hl
    simp only [locator_selectOption] at hr
    cases hsel : selectOptionLocator ⟨a, b, none, some lv, i⟩ with
    | error e => rw [hsel] at hr; exact absurd hr (by simp)
    | ok s =>
      rw [hsel] at hr
      simp only [Except.ok.injEq] at hr
      exact ⟨s, hr.symm⟩
  · intro iv hc hl hi r hr
    cases hc; cases hl; cases hi
    simp only [locator_selectOption] at hr
    cases hsel : selectOptionLocator ⟨a, b, none, none, some iv⟩ with
    | error e => rw [hsel] at hr; exact absurd hr (by simp)
    | ok s =>
      rw [hsel] at hr
      simp only [Except.ok.injEq] at hr
      exact ⟨s, hr.symm⟩
  · intro r hr
    simp only [locator_selectOption] at hr
    cases hsel : selectOptionLocator ⟨a, b, c, l, i⟩ with
    | error e => rw [hsel] at hr; exact absurd hr (by simp)
    | ok s =>
      rw [hsel] at hr
      cases c with
      | some v => simp only [Except.ok.injEq] at hr; rw [← hr]; rfl
      | none =>
        cases l with
        | some lv => simp only [Except.ok.injEq] at hr; rw [← hr]; rfl
        | none =>
          cases i with
          | some iv => simp only [Except.ok.injEq] at hr; rw [← hr]; rfl
          | none => exact absurd hr (by simp)

theorem selectOption_execution_precedence_witness :
    ([(markerSelector "idA", SelectTarget.byValue (Sum.inl "v1"))] :
        List (String × SelectTarget)).length = 1 :=
  (selectOption_execution_precedence
    ⟨some "idA", some "#x", some (Sum.inl "v1"), some (Sum.inl "l1"),
      none⟩).2.2.2.2 _ (by rfl)

namespace LocateProofs

lemma freshIds_length (uuid : Nat → String) (fresh n : Nat) :
    (freshIds uuid fresh n).length = n := by
  simp [freshIds]

lemma freshIds_succ (uuid : Nat → String) (fresh n : Nat) :
    freshIds uuid fresh (n + 1) = uuid fresh :: freshIds uuid (fresh + 1) n := by
  unfold freshIds
  rw [List.range_succ_eq_map]
  simp only [List.map_cons, Nat.add_zero, List.map_map]
  congr 1
  apply List.map_congr_left
  intro i _
  simp only [Function.comp_apply]
  congr 1
  omega

/-- The stamping loop pairs the matches, in order, with successive fresh
tokens. -/
lemma stampAll_eq (uuid : Nat → String) :
    ∀ (locs : List Nat) (fresh : Nat),
      stampAll uuid locs fresh =
        (locs.zip (freshIds uuid fresh locs.length),
          freshIds uuid fresh locs.length, fresh + locs.length) := by
  intro locs
  induction locs with
  | nil => intro fresh; simp [stampAll, freshIds]
  | cons e rest ih =>
    intro fresh
    simp only [stampAll, ih (fresh + 1), List.length_cons, freshIds_succ,
      List.zip_cons_cons]
    have harith : fresh + 1 + rest.length = fresh + (rest.length + 1) := by
      omega
    rw [harith]

/-- The visibility-filtering loop stamps exactly the visible matches. -/
lemma stampVisible_eq (pg : PageModel) (uuid : Nat → String) :
    ∀ (locs : List Nat) (fresh : Nat),
      stampVisible pg uuid locs fresh =
        stampAll uuid (locs.filter pg.visible) fresh := by
  intro locs
  induction locs with
  | nil => intro fresh; rfl
  | cons e rest ih =>
    intro fresh
    by_cases hv : pg.visible e
    · simp [stampVisible, stampAll, hv, List.filter_cons, ih]
    · simp [stampVisible, hv, List.filter_cons, ih]

end LocateProofs

/-- C6 counterexample: the CSS-selector locating action does not return a
list of identifiers for every match: with two elements matching "#a" it
stamps only the first and answers with a single elementId field (no list,
no count), and with zero matches it fails with a driver error instead of
returning an empty list. -/
theorem locateElement_single_id_counterexample :
    pg0.queryCss "#a" = [1, 2] ∧
    locateElement pg0 uuid0 0 "#a" =
      Except.ok ⟨[(1, "u")], Json.obj [("elementId", Json.str "u")], 1⟩ ∧
    locateElement pg0 uuid0 0 "#none" =
      Except.error "locator.first().evaluate: element not found" :=
  ⟨rfl, rfl, rfl⟩

/-- C6 (amended): `locateElementsByRole` and `locateElementsWithText`
assign a freshly generated identifier to every match (the text search
restricted to visible matches) and return the identifier list together with
its count — zero matches yields the empty list without error; `locateElement`
(the CSS locate) instead stamps only the FIRST matching element, returns
that single identifier rather than a list, and fails when nothing
matches. -/
theorem locating_actions_report (pg : PageModel) (uuid : Nat → String)
    (fresh : Nat) (role text cssSel : String) (exact : Option Bool) :
    (locateElementsByRole pg uuid fresh role exact =
      ⟨(pg.byRole role (exact.getD false)).zip
          (freshIds uuid fresh (pg.byRole role (exact.getD false)).length),
        Json.obj
          [("elementIds",
            Json.arr
              ((freshIds uuid fresh
                (pg.byRole role (exact.getD false)).length).map Json.str)),
            ("count",
              Json.num
                (Int.ofNat (pg.byRole role (exact.getD false)).length))],
        fresh + (pg.byRole role (exact.getD false)).length⟩) ∧
    (locateElementsWithText pg uuid fresh text exact =
      ⟨((pg.byText text (exact.getD false)).filter pg.visible).zip
          (freshIds uuid fresh
            ((pg.byText text (exact.getD false)).filter pg.visible).length),
        Json.obj
          [("elementIds",
            Json.arr
              ((freshIds uuid fresh
                ((pg.byText text (exact.getD false)).filter
                  pg.visible).length).map Json.str)),
            ("count",
              Json.num
                (Int.ofNat
                  ((pg.byText text (exact.getD false)).filter
                    pg.visible).length))],
        fresh +
          ((pg.byText text (exact.getD false)).filter pg.visible).length⟩) ∧
    (pg.queryCss cssSel = [] →
      locateElement pg uuid fresh cssSel =
        Except.error "locator.first().evaluate: element not found") ∧
    (∀ e rest, pg.queryCss cssSel = e :: rest →
      locateElement pg uuid fresh cssSel =
        Except.ok
          ⟨[(e, uuid fresh)], Json.obj [("elementId", Json.str (uuid fresh))],
            fresh + 1⟩) := by
  refine ⟨?_, ?_, ?_, ?_⟩
  · simp [locateElementsByRole, LocateProofs.stampAll_eq,
      LocateProofs.freshIds_length]
  · simp [locateElementsWithText, LocateProofs.stampVisible_eq,
      LocateProofs.stampAll_eq, LocateProofs.freshIds_length]
  · intro h
    simp [locateElement, h]
  · intro e rest h
    simp [locateElement, h]

theorem locating_actions_report_witness :
    locateElement pg0 uuid0 0 "#none" =
      Except.error "locator.first().evaluate: element not found" :=
  (locating_actions_report pg0 uuid0 0 "button" "hi" "#none" none).2.2.1
    (by rfl)

namespace ExtractProofs

lemma mem_vnodeAllList (u : VNode) :
    ∀ ch : List VNode, u ∈ vnodeAllList ch ↔ ∃ v ∈ ch, u ∈ vnodeAll v := by
  intro ch
  induction ch with
  | nil => simp [vnodeAllList]
  | cons v vs ih => simp [vnodeAllList, List.mem_append, ih]

lemma extractChildren_mem (cfg : SanitizeConfig) (md : Nat) :
    ∀ (kids : List DomNode) (d : Nat) (v : VNode),
      v ∈ extractChildren cfg md kids d →
      ∃ k ∈ kids, extractVisibleStructure cfg md k d = some v := by
  intro kids
  induction kids with
  | nil => intro d v hv; simp [extractChildren] at hv
  | cons k rest ih =>
    intro d v hv
    cases hk : extractVisibleStructure cfg md k d with
    | some w =>
      simp only [extractChildren, hk] at hv
      rcases List.mem_cons.mp hv with h | h
      · exact ⟨k, List.mem_cons_self _ _, by rw [hk, h]⟩
      · obtain ⟨k2, hk2, he⟩ := ih d v h
        exact ⟨k2, List.mem_cons_of_mem _ hk2, he⟩
    | none =>
      simp only [extractChildren, hk] at hv
      obtain ⟨k2, hk2, he⟩ := ih d v hv
      exact ⟨k2, List.mem_cons_of_mem _ hk2, he⟩

lemma sizeOf_child_lt {k : DomNode} {kids : List DomNode} (hk : k ∈ kids)
    (tag : String) (attrs : List (String × String)) (dsp vis op : String) :
    sizeOf k < sizeOf (DomNode.element tag attrs dsp vis op kids) := by
  have h1 : sizeOf k < sizeOf kids := List.sizeOf_lt_of_mem hk
  have h2 : sizeOf kids < sizeOf (DomNode.element tag attrs dsp vis op kids) := by
    simp
  omega

/-- Every node of an extracted tree carries an allow-listed tag. -/
lemma extract_tags (cfg : SanitizeConfig) (md : Nat) :
    ∀ (n : DomNode) (d : Nat) (v : VNode),
      extractVisibleStructure cfg md n d = some v →
      ∀ u ∈ vnodeAll v, cfg.allowedTags.contains u.tag = true := by
  have H : ∀ (sz : Nat) (n : DomNode), sizeOf n ≤ sz →
      ∀ (d : Nat) (v : VNode),
        extractVisibleStructure cfg md n d = some v →
        ∀ u ∈ vnodeAll v, cfg.allowedTags.contains u.tag = true := by
    intro sz
    induction sz with
    | zero =>
      intro n hn
      exfalso
      cases n <;> simp at hn
    | succ sz ih =>
      intro n hn d v hv u hu
      cases n with
      | text s => simp [extractVisibleStructure] at hv
      | element tag attrs dsp vis op kids =>
        simp only [extractVisibleStructure] at hv
        by_cases h1 : d > md
        · rw [if_pos h1] at hv; exact Option.noConfusion hv
        · rw [if_neg h1] at hv
          by_cases h2 : (dsp == "none" || vis == "hidden" || op == "0") = true
          · rw [if_pos h2] at hv; exact Option.noConfusion hv
          · rw [if_neg h2] at hv
            by_cases h3 : (!cfg.allowedTags.contains (jsToLower tag)) = true
            · rw [if_pos h3] at hv; exact Option.noConfusion hv
            · rw [if_neg h3] at hv
              have hallow : cfg.allowedTags.contains (jsToLower tag) = true := by
                simpa using h3
              have hv2 := Option.some.inj hv
              subst hv2
              simp only [vnodeAll] at hu
              rcases List.mem_cons.mp hu with h | h
              · subst h; simpa [VNode.tag] using hallow
              · by_cases h4 : d + 1 < md
                · rw [if_pos h4] at h
                  obtain ⟨v2, hv2mem, hu2⟩ := (mem_vnodeAllList u _).mp h
                  obtain ⟨k, hkmem, hke⟩ :=
                    extractChildren_mem cfg md kids (d + 1) v2 hv2mem
                  refine ih k ?_ (d + 1) v2 hke u hu2
                  have := sizeOf_child_lt hkmem tag attrs dsp vis op
                  omega
                · rw [if_neg h4] at h
                  simp [vnodeAllList] at h
  intro n d v hv
  exact H (sizeOf n) n le_rfl d v hv

lemma vnodeListHeight_le (m : Nat) :
    ∀ (l : List VNode), (∀ v ∈ l, vnodeHeight v ≤ m) →
      vnodeListHeight l ≤ m := by
  intro l
  induction l with
  | nil => intro _; simp [vnodeListHeight]
  | cons v vs ih =>
    intro h
    simp only [vnodeListHeight]
    exact max_le (h v (List.mem_cons_self _ _))
      (ih fun v2 hv2 => h v2 (List.mem_cons_of_mem _ hv2))

/-- The extracted tree never exceeds the remaining depth budget. -/
lemma extract_height (cfg : SanitizeConfig) :
    ∀ (n : DomNode) (d : Nat) (v : VNode), d ≤ 29 →
      extractVisibleStructure cfg 30 n d = some v →
      vnodeHeight v ≤ 30 - d := by
  have H : ∀ (sz : Nat) (n : DomNode), sizeOf n ≤ sz →
      ∀ (d : Nat) (v : VNode), d ≤ 29 →
        extractVisibleStructure cfg 30 n d = some v →
        vnodeHeight v ≤ 30 - d := by
    intro sz
    induction sz with
    | zero =>
      intro n hn
      exfalso
      cases n <;> simp at hn
    | succ sz ih =>
      intro n hn d v hd hv
      cases n with
      | text s => simp [extractVisibleStructure] at hv
      | element tag attrs dsp vis op kids =>
        simp only [extractVisibleStructure] at hv
        by_cases h1 : d > 30
        · rw [if_pos h1] at hv; exact Option.noConfusion hv
        · rw [if_neg h1] at hv
          by_cases h2 : (dsp == "none" || vis == "hidden" || op == "0") = true
          · rw [if_pos h2] at hv; exact Option.noConfusion hv
          · rw [if_neg h2] at hv
            by_cases h3 : (!cfg.allowedTags.contains (jsToLower tag)) = true
            · rw [if_pos h3] at hv; exact Option.noConfusion hv
            · rw [if_neg h3] at hv
              have hv2 := Option.some.inj hv
              subst hv2
              simp only [vnodeHeight]
              by_cases h4 : d + 1 < 30
              · rw [if_pos h4]
                have hbound :
                    vnodeListHeight (extractChildren cfg 30 kids (d + 1)) ≤
                      30 - (d + 1) := by
                  apply vnodeListHeight_le
                  intro v2 hv2mem
                  obtain ⟨k, hkmem, hke⟩ :=
                    extractChildren_mem cfg 30 kids (d + 1) v2 hv2mem
                  refine ih k ?_ (d + 1) v2 (by omega) hke
                  have := sizeOf_child_lt hkmem tag attrs dsp vis op
                  omega
                omega
              · rw [if_neg h4]
                simp only [vnodeListHeight]
                omega
  intro n d v hd hv
  exact H (sizeOf n) n le_rfl d v hd hv

lemma singleTextChild_iff (kids : List DomNode) :
    singleTextChild kids = true ↔ ∃ u, kids = [DomNode.text u] := by
  cases kids with
  | nil => simp [singleTextChild]
  | cons k rest =>
    cases k with
    | text s =>
      cases rest with
      | nil => simp [singleTextChild]
      | cons b bs => simp [singleTextChild]
    | element a1 a2 a3 a4 a5 a6 =>
      cases rest with
      | nil => simp [singleTextChild]
      | cons b bs => simp [singleTextChild]

lemma textContentList_single (u : String) :
    textContentList [DomNode.text u] = u := by
  show textContent (DomNode.text u) ++ textContentList [] = u
  show u ++ "" = u
  exact String.append_empty u

end ExtractProofs

/-- C7: every node emitted by the visible-structure extraction carries a tag
from the configured allow-list, and a node that is computed invisible
(display none, visibility hidden or opacity 0) or whose tag is not in the
allow-list is pruned with its entire subtree: the extraction returns
nothing for it and never descends into it. -/
theorem extraction_allowlist_pruning (cfg : SanitizeConfig) (md : Nat) :
    (∀ (n : DomNode) (d : Nat) (v : VNode),
      extractVisibleStructure cfg md n d = some v →
      ∀ u ∈ vnodeAll v, cfg.allowedTags.contains u.tag = true) ∧
    (∀ (tag : String) (attrs : List (String × String)) (dsp vis op : String)
      (kids : List DomNode) (d : Nat),
      (dsp = "none" ∨ vis = "hidden" ∨ op = "0" ∨
        cfg.allowedTags.contains (jsToLower tag) = false) →
      extractVisibleStructure cfg md
        (DomNode.element tag attrs dsp vis op kids) d = none) := by
  constructor
  · exact ExtractProofs.extract_tags cfg md
  · intro tag attrs dsp vis op kids d h
    simp only [extractVisibleStructure]
    by_cases h1 : d > md
    · rw [if_pos h1]
    · rw [if_neg h1]
      by_cases h2 : (dsp == "none" || vis == "hidden" || op == "0") = true
      · rw [if_pos h2]
      · rw [if_neg h2]
        rcases h with h | h | h | h
        · subst h; simp at h2
        · subst h; simp at h2
        · subst h; simp at h2
        · rw [if_pos (by rw [h]; rfl)]

theorem extraction_allowlist_pruning_witness :
    cfg0.allowedTags.contains
      (VNode.mk "div" [] none none none none none []).tag = true :=
  (extraction_allowlist_pruning cfg0 30).1 (divChain 0) 0
    (VNode.mk "div" [] none none none none none []) (by rfl) _
    (by simp [vnodeAll, vnodeAllList])

/-- C8: the extraction recurses into element children only while
depth + 1 < 30 (with the root at depth 0): every tree extracted from depth
d ≤ 29 has height at most 30 - d, a node emitted at the limit has its
children omitted entirely, and a 35-level-deep chain of nested visible div
elements extracts to a tree of height exactly 30. -/
theorem extraction_depth_limit (cfg : SanitizeConfig) :
    (∀ (n : DomNode) (d : Nat) (v : VNode), d ≤ 29 →
      extractVisibleStructure cfg 30 n d = some v →
      vnodeHeight v ≤ 30 - d) ∧
    (∀ (tag : String) (attrs : List (String × String)) (dsp vis op : String)
      (kids : List DomNode) (d : Nat) (v : VNode), ¬(d + 1 < 30) →
      extractVisibleStructure cfg 30
        (DomNode.element tag attrs dsp vis op kids) d = some v →
      v.children = []) ∧
    (getVisibleStructure cfg0 (divChain 34)).map vnodeHeight = some 30 := by
  refine ⟨ExtractProofs.extract_height cfg, ?_, by rfl⟩
  intro tag attrs dsp vis op kids d v hd hv
  simp only [extractVisibleStructure] at hv
  by_cases h1 : d > 30
  · rw [if_pos h1] at hv; exact Option.noConfusion hv
  · rw [if_neg h1] at hv
    by_cases h2 : (dsp == "none" || vis == "hidden" || op == "0") = true
    · rw [if_pos h2] at hv; exact Option.noConfusion hv
    · rw [if_neg h2] at hv
      by_cases h3 : (!cfg.allowedTags.contains (jsToLower tag)) = true
      · rw [if_pos h3] at hv; exact Option.noConfusion hv
      · rw [if_neg h3] at hv
        have hv2 := Option.some.inj hv
        subst hv2
        simp [VNode.children, if_neg hd]

theorem extraction_depth_limit_witness :
    vnodeHeight (VNode.mk "div" [] none none none none none []) ≤ 30 - 0 :=
  (extraction_depth_limit cfg0).1 (divChain 0) 0
    (VNode.mk "div" [] none none none none none []) (by omega) (by rfl)

/-- C9: an extracted node carries a text field exactly when the element has
a single child node, that child is a text node, and its trimmed text is
non-empty; the value is the trimmed text truncated to 50 characters with an
ellipsis marker when longer; elements with two or more child nodes (mixed
or multi-child content) never receive a text field. -/
theorem extraction_text_field (cfg : SanitizeConfig) (md : Nat)
    (tag : String) (attrs : List (String × String)) (dsp vis op : String)
    (kids : List DomNode) (d : Nat) (v : VNode)
    (h : extractVisibleStructure cfg md
      (DomNode.element tag attrs dsp vis op kids) d = some v) :
    (∀ s, v.text = some s →
      ∃ u, kids = [DomNode.text u] ∧ jsTrim u ≠ "" ∧
        s = truncateText (jsTrim u)) ∧
    (∀ u, kids = [DomNode.text u] → jsTrim u ≠ "" →
      v.text = some (truncateText (jsTrim u))) ∧
    (2 ≤ kids.length → v.text = none) := by
  simp only [extractVisibleStructure] at h
  by_cases h1 : d > md
  · rw [if_pos h1] at h; exact Option.noConfusion h
  · rw [if_neg h1] at h
    by_cases h2 : (dsp == "none" || vis == "hidden" || op == "0") = true
    · rw [if_pos h2] at h; exact Option.noConfusion h
    · rw [if_neg h2] at h
      by_cases h3 : (!cfg.allowedTags.contains (jsToLower tag)) = true
      · rw [if_pos h3] at h; exact Option.noConfusion h
      · rw [if_neg h3] at h
        have hv2 := Option.some.inj h
        subst hv2
        refine ⟨?_, ?_, ?_⟩
        · intro s hs
          simp only [VNode.text] at hs
          by_cases h4 : singleTextChild kids = true
          · obtain ⟨u, rfl⟩ := (ExtractProofs.singleTextChild_iff kids).mp h4
            rw [if_pos h4, ExtractProofs.textContentList_single] at hs
            by_cases h5 : (jsTrim u == "") = true
            · rw [if_pos h5] at hs; exact Option.noConfusion hs
            · rw [if_neg h5] at hs
              exact ⟨u, rfl, by simpa using h5,
                (Option.some.inj hs).symm⟩
          · rw [if_neg h4] at hs
            exact Option.noConfusion hs
        · intro u hk hne
          subst hk
          have h4 : singleTextChild [DomNode.text u] = true := by
            simp [singleTextChild]
          simp only [VNode.text]
          rw [if_pos h4, ExtractProofs.textContentList_single,
            if_neg (by simpa using hne)]
        · intro hlen
          have h4 : singleTextChild kids = false := by
            cases h4 : singleTextChild kids with
            | true =>
              obtain ⟨u, rfl⟩ :=
                (ExtractProofs.singleTextChild_iff kids).mp h4
              simp at hlen
            | false => rfl
          simp only [VNode.text]
          rw [if_neg (by simp [h4])]

theorem extraction_text_field_witness :
    (VNode.mk "p" [] none none none none (some "hello") []).text =
      some (truncateText (jsTrim " hello ")) :=
  (extraction_text_field cfg0 30 "p" [] "b" "v" "1" [DomNode.text " hello "]
    0 (VNode.mk "p" [] none none none none (some "hello") [])
    (by rfl)).2.1 " hello " rfl (by decide)
